import Mathlib

/-!
Verification of the Tender-RAG-Lab document chunking and tagging core.

The definitions below are a shallow embedding of the Python sources:
  src/core/chunking/chunking.py          (TokenChunker, _build_spans)
  src/core/chunking/dynamic_chunker.py   (DynamicChunker.build_chunks)
  src/core/ingestion/core/heading_detection.py
  src/core/ingestion/core/table_detection.py
  src/infra/parsers/pdf/pdfplumber_parser.py (repetition filters)

Python floats are modelled as rationals, dict-based blocks as a record with
optional fields, and in-place mutation as explicit state passing.
-/

namespace TenderRag

/-- Whitespace characters recognised by Python's str.split / regex \s
(ASCII subset; the documents handled by the pipeline are ASCII/Latin text). -/
def pyIsSpace (c : Char) : Bool :=
  c = ' ' || c = '\t' || c = '\n' || c = '\r' || c = Char.ofNat 11 || c = Char.ofNat 12

/-- ASCII decimal digit, as matched by the regex class \d on this corpus. -/
def pyIsDigit (c : Char) : Bool :=
  '0' ≤ c && c ≤ '9'

/-- Both-ends whitespace strip on a character list (Python str.strip). -/
def stripChars (cs : List Char) : List Char :=
  ((cs.dropWhile pyIsSpace).reverse.dropWhile pyIsSpace).reverse

/-- Python str.strip on a string. -/
def stripStr (s : String) : String :=
  String.mk (stripChars s.data)

/-- Python str.lower (ASCII). -/
def lowerStr (s : String) : String :=
  String.mk (s.data.map Char.toLower)

/-- Does the first list occur as an initial segment of the second? -/
def hasPrefixCh : List Char → List Char → Bool
  | [], _ => true
  | _ :: _, [] => false
  | p :: ps, c :: cs => p = c && hasPrefixCh ps cs

/-- Substring containment test (Python `tok in s`). -/
def containsTok (pat : List Char) : List Char → Bool
  | [] => hasPrefixCh pat []
  | c :: rest => hasPrefixCh pat (c :: rest) || containsTok pat rest

/-- Insertion into an ascending-sorted list. -/
def insertLe {α : Type} [LinearOrder α] (x : α) : List α → List α
  | [] => [x]
  | y :: ys => if x ≤ y then x :: y :: ys else y :: insertLe x ys

/-- Insertion sort, ascending (models Python sorted). -/
def sortLe {α : Type} [LinearOrder α] : List α → List α
  | [] => []
  | x :: xs => insertLe x (sortLe xs)

/-- Words of a text: maximal runs of non-whitespace (Python str.split()). -/
def wordsGo (acc : List Char) : List Char → List (List Char)
  | [] => if acc = [] then [] else [acc.reverse]
  | c :: rest =>
    if pyIsSpace c then
      if acc = [] then wordsGo [] rest else acc.reverse :: wordsGo [] rest
    else wordsGo (c :: acc) rest

/-- Python text.split(): the list of whitespace-separated words. -/
def wordsOf (cs : List Char) : List (List Char) :=
  wordsGo [] cs

/-!
## Token chunker (src/core/chunking/chunking.py)
-/

/-- Loop body of `_build_spans`.  The Python while loop runs at most
`n + 1` iterations for `overlap < max_tokens` (each iteration advances
`start` by `max_tokens - overlap ≥ 1`); the fuel argument bounds that
iteration count and `buildSpansGo_eq_specScanGo` below shows the bound is
never reached for valid parameters. -/
def buildSpansGo (maxTokens minTokens overlap n : ℕ) : ℕ → ℕ → List (ℕ × ℕ)
  | 0, _ => []
  | fuel + 1, start =>
    if start < n then
      if min (start + maxTokens) n - start < minTokens ∧ start ≠ 0 then []
      else if min (start + maxTokens) n = n then [(start, min (start + maxTokens) n)]
      else (start, min (start + maxTokens) n) ::
        buildSpansGo maxTokens minTokens overlap n fuel (min (start + maxTokens) n - overlap)
    else []

/-- `_build_spans(tokens, max_tokens, overlap, min_tokens)`: forward scan
producing `(start, end)` windows over the token list.  Natural-number
subtraction `end - overlap` models Python's `max(0, end - overlap)`. -/
def buildSpans (tokens : List String) (maxTokens overlap minTokens : ℕ) : List (ℕ × ℕ) :=
  if tokens.length = 0 then []
  else buildSpansGo maxTokens minTokens overlap tokens.length (tokens.length + 1) 0

/-- Modelled from the spec (section 4.9): the forward scan as worded there,
used to compare the implementation against the specified algorithm.
Starting at start = 0 each window ends at min(start + max_tokens, n); a
window shorter than min_tokens with start ≠ 0 stops the scan unemitted;
an emitted window reaching n stops the scan; otherwise the scan continues
from max(0, end - overlap_tokens). -/
def specScanGo (maxTokens minTokens overlap n : ℕ) (hov : overlap < maxTokens)
    (start : ℕ) : List (ℕ × ℕ) :=
  if start < n then
    if min (start + maxTokens) n - start < minTokens ∧ start ≠ 0 then []
    else if _h : min (start + maxTokens) n = n then [(start, min (start + maxTokens) n)]
    else (start, min (start + maxTokens) n) ::
      specScanGo maxTokens minTokens overlap n hov (min (start + maxTokens) n - overlap)
  else []
termination_by n - start
decreasing_by simp_wf; omega

/-- Modelled from the spec: full scan over a token list. -/
def specScan (tokens : List String) (maxTokens overlap minTokens : ℕ)
    (hov : overlap < maxTokens) : List (ℕ × ℕ) :=
  specScanGo maxTokens minTokens overlap tokens.length hov 0

/-- `TokenChunker.__init__` parameter validation: mirrors the three raise
sites; parameters are Python ints, modelled as integers. -/
def tokenChunkerInit (maxTokens minTokens overlapTokens : ℤ) :
    Except String (ℤ × ℤ × ℤ) :=
  if minTokens ≤ 0 ∨ maxTokens ≤ 0 ∨ overlapTokens < 0 then
    Except.error "Token sizes must be positive, overlap non-negative"
  else if minTokens > maxTokens then
    Except.error "min_tokens cannot exceed max_tokens"
  else if overlapTokens ≥ maxTokens then
    Except.error "overlap_tokens must be smaller than max_tokens"
  else Except.ok (maxTokens, minTokens, overlapTokens)

/-!
## Heading detection (src/core/ingestion/core/heading_detection.py)

Regex patterns are implemented as explicit matchers over character lists.
All patterns are used with re.match (anchored at the start); a trailing
`.*` never constrains matching and is omitted.
-/

/-- Case-insensitive literal prefix: the pattern is given lowercase and the
remainder of the text after it is returned. -/
def stripPrefixCI : List Char → List Char → Option (List Char)
  | [], cs => some cs
  | _ :: _, [] => none
  | p :: ps, c :: cs => if c.toLower = p then stripPrefixCI ps cs else none

/-- After one or more whitespace characters, the first non-whitespace
character must satisfy p (models the regex fragment \s+ followed by a
character class, which are disjoint, hence deterministic). -/
def afterWsThen (p : Char → Bool) : List Char → Bool
  | [] => false
  | c :: rest => if pyIsSpace c then afterWsThen p rest else p c

/-- Models the regex fragment \s+ followed by a character class. -/
def wsPlusThen (p : Char → Bool) : List Char → Bool
  | [] => false
  | c :: rest => pyIsSpace c && afterWsThen p rest

/-- Keyword (case-insensitive) then \s+ then a character of class p. -/
def matchKeywordThen (kw : List Char) (p : Char → Bool) (cs : List Char) : Bool :=
  match stripPrefixCI kw cs with
  | some rest => wsPlusThen p rest
  | none => false

/-- Roman-numeral characters of the class [IVXLC], case-insensitive. -/
def isRomanCI (c : Char) : Bool :=
  c.toLower = 'i' || c.toLower = 'v' || c.toLower = 'x' || c.toLower = 'l' || c.toLower = 'c'

/-- ART_PATTERN = ^Art\.?\s+\d+.* (IGNORECASE). -/
def matchArt (cs : List Char) : Bool :=
  match stripPrefixCI ['a', 'r', 't'] cs with
  | some rest => wsPlusThen pyIsDigit (match rest with | '.' :: r2 => r2 | _ => rest)
  | none => false

/-- CAPO_PATTERN = ^CAPO\s+[IVXLC]+.* (IGNORECASE). -/
def matchCapo (cs : List Char) : Bool :=
  matchKeywordThen ['c', 'a', 'p', 'o'] isRomanCI cs

/-- CAPITOLO_PATTERN = ^Capitolo\s+\d+.* (IGNORECASE). -/
def matchCapitolo (cs : List Char) : Bool :=
  matchKeywordThen ['c', 'a', 'p', 'i', 't', 'o', 'l', 'o'] pyIsDigit cs

/-- TITLE_PATTERN = ^Titolo\s+\d+.* (IGNORECASE). -/
def matchTitolo (cs : List Char) : Bool :=
  matchKeywordThen ['t', 'i', 't', 'o', 'l', 'o'] pyIsDigit cs

/-- The regex fragment \s+.+ : at least one whitespace character, then at
least one character matched by the wildcard (anything but a newline);
newlines may be absorbed into the \s+ run. -/
def numTailWs : List Char → Bool
  | [] => false
  | c :: rest => if c = '\n' then numTailWs rest else true

/-- \s+.+ entry point. -/
def numTail : List Char → Bool
  | [] => false
  | c :: rest => pyIsSpace c && numTailWs rest

/-- After the leading digit run of NUM_L1: remaining digits, a dot, then \s+.+. -/
def numL1After : List Char → Bool
  | [] => false
  | c :: rest => if pyIsDigit c then numL1After rest else c = '.' && numTail rest

/-- NUM_L1_PATTERN = ^\d+\.\s+.+ . -/
def matchNumL1 (cs : List Char) : Bool :=
  match cs with
  | c :: rest => pyIsDigit c && numL1After rest
  | [] => false

/-- Second digit run of NUM_L2, then a dot, then \s+.+. -/
def numL2AfterB : List Char → Bool
  | [] => false
  | c :: rest => if pyIsDigit c then numL2AfterB rest else c = '.' && numTail rest

/-- First digit run of NUM_L2, then a dot, then \d then the second run. -/
def numL2AfterA : List Char → Bool
  | [] => false
  | c :: rest =>
    if pyIsDigit c then numL2AfterA rest
    else c = '.' && (match rest with | d :: r2 => pyIsDigit d && numL2AfterB r2 | [] => false)

/-- NUM_L2_PATTERN = ^\d+\.\d+\.\s+.+ . -/
def matchNumL2 (cs : List Char) : Bool :=
  match cs with
  | c :: rest => pyIsDigit c && numL2AfterA rest
  | [] => false

/-- Character class of ALL_CAPS_PATTERN. -/
def allCapsChar (c : Char) : Bool :=
  ('A' ≤ c && c ≤ 'Z') || ('0' ≤ c && c ≤ '9') || c = ' ' || c = ',' || c = '.' ||
    c = Char.ofNat 39 || c = '’' || c = '/' || c = '\\' || c = '-'

/-- ALL_CAPS_PATTERN = ^[A-Z0-9 ,.'’/\\-]+$ : the whole text (a Python $
also matches just before one trailing newline) consists of class
characters and is nonempty. -/
def matchAllCaps (cs : List Char) : Bool :=
  let core := if cs.getLast? = some '\n' then cs.dropLast else cs
  decide (core ≠ []) && core.all allCapsChar

/-- A block record: one entry of a Python block dictionary, with the keys
this core reads.  Absent (or wrongly typed) keys are `none`. -/
structure Block where
  text : String
  fontSize : Option ℚ
  fontName : Option String
  btype : Option String
  level : Option ℤ
  bbox : Option (ℚ × ℚ × ℚ × ℚ)
  pageNumber : Option ℤ
deriving DecidableEq

/-- statistics.median over rationals (sorted middle, or mean of the two
middles for even length); callers guard against the empty list. -/
def medianQ (l : List ℚ) : ℚ :=
  if l.length % 2 = 1 then (sortLe l).getD (l.length / 2) 0
  else ((sortLe l).getD (l.length / 2 - 1) 0 + (sortLe l).getD (l.length / 2) 0) / 2

/-- `_font_threshold`: median block font size plus the boost, or 0.0 when
no block carries a numeric font size. -/
def fontThreshold (blocks : List Block) (boost : ℚ) : ℚ :=
  let sizes := blocks.filterMap (·.fontSize)
  if sizes = [] then 0 else medianQ sizes + boost

/-- `_is_bold`: the lowercased font name contains a bold token. -/
def isBold (fontName : Option String) : Bool :=
  match fontName with
  | none => false
  | some f =>
    containsTok ['b', 'o', 'l', 'd'] (f.data.map Char.toLower) ||
    containsTok ['b', 'l', 'a', 'c', 'k'] (f.data.map Char.toLower) ||
    containsTok ['h', 'e', 'a', 'v', 'y'] (f.data.map Char.toLower) ||
    containsTok ['s', 'e', 'm', 'i', 'b', 'o', 'l', 'd'] (f.data.map Char.toLower)

/-- Rank assignment used by `_relative_levels`: ranks count up from i. -/
def relLevelsGo (i : ℤ) : List ℚ → List (ℚ × ℤ)
  | [] => []
  | s :: rest => (s, i) :: relLevelsGo (i + 1) rest

/-- `_relative_levels`: distinct font sizes sorted descending, each paired
with its 1-based rank (rank 1 = largest size). -/
def relativeLevels (blocks : List Block) : List (ℚ × ℤ) :=
  relLevelsGo 1 (sortLe ((blocks.filterMap (·.fontSize)).dedup)).reverse

/-- Python `min(size_levels, key=lambda lv: abs(font_size - lv[0]))`:
left fold keeping the first entry of minimal distance. -/
def closestLevel (fs : ℚ) : List (ℚ × ℤ) → (ℚ × ℤ) → (ℚ × ℤ)
  | [], best => best
  | lv :: rest, best => closestLevel fs rest (if |fs - lv.1| < |fs - best.1| then lv else best)

/-- Rank of the distinct font size closest to fs (first minimum wins);
0 is a junk value for the empty ranking, which callers exclude. -/
def closestRank (fs : ℚ) : List (ℚ × ℤ) → ℤ
  | [] => 0
  | lv :: rest => (closestLevel fs rest lv).2

/-- `_classify_block`: classify one block as (type, level).  The first
conditional mirrors `font_size >= size_threshold > 0 and bold`; the
subsequent if/elif chain overrides its result when any branch fires. -/
def classifyBlock (text : String) (fontSize : ℚ) (fontName : Option String)
    (sizeThreshold : ℚ) (sizeLevels : List (ℚ × ℤ)) : String × Option ℤ :=
  let bold := isBold fontName
  let base : String × Option ℤ :=
    if sizeThreshold ≤ fontSize ∧ 0 < sizeThreshold ∧ bold = true then ("heading", some 1)
    else ("paragraph", none)
  if matchArt text.data then ("heading", some 2)
  else if matchCapo text.data || matchCapitolo text.data || matchTitolo text.data then
    ("heading", some 1)
  else if matchNumL2 text.data then ("heading", some 2)
  else if matchNumL1 text.data then ("heading", some 1)
  else if matchAllCaps text.data && decide ((wordsOf text.data).length ≤ 8) then
    ("heading", some 1)
  else if bold = true ∧ 0 < fontSize ∧ sizeLevels ≠ [] then
    ("heading", some (closestRank fontSize sizeLevels))
  else base

/-- `tag_headings`: classify every block of a page, writing the type key
always and the level key only when a level was assigned (an existing
level value survives a `None` classification). -/
def tagHeadings (pageBlocks : List Block) (fontBoost : ℚ) : List Block :=
  pageBlocks.map fun b =>
    let r := classifyBlock (stripStr b.text) (b.fontSize.getD 0) b.fontName
      (fontThreshold pageBlocks fontBoost) (relativeLevels pageBlocks)
    { b with btype := some r.1, level := match r.2 with | some l => some l | none => b.level }

/-!
## Table detection (src/core/ingestion/core/table_detection.py)
-/

/-- Is the character one of the ASCII line separators recognised by
Python str.splitlines on this corpus? -/
def isLineBreak (c : Char) : Bool :=
  c = '\n' || c = '\r' || c = Char.ofNat 11 || c = Char.ofNat 12

/-- Split on single line-break characters.  A CRLF pair produces one
extra empty line relative to Python splitlines, which the blank-line
filter in `nonBlankLines` discards, so the two agree there. -/
def splitOnLineBreaksGo (acc : List Char) : List Char → List (List Char)
  | [] => [acc.reverse]
  | c :: rest =>
    if isLineBreak c then acc.reverse :: splitOnLineBreaksGo [] rest
    else splitOnLineBreaksGo (c :: acc) rest

/-- All lines of a text. -/
def splitOnLineBreaks (cs : List Char) : List (List Char) :=
  splitOnLineBreaksGo [] cs

/-- `[line for line in text.splitlines() if line.strip()]`. -/
def nonBlankLines (cs : List Char) : List (List Char) :=
  (splitOnLineBreaks cs).filter fun l => l.any fun c => !pyIsSpace c

/-- Scanner for `re.split(r"\s{2,}", line)`: a run of two or more
whitespace characters separates segments, a single whitespace character
stays inside its segment.  The fuel starts at the line length and is
decremented once per consumed character, so it never runs out. -/
def wsRunSplitGo : ℕ → List Char → List Char → List (List Char)
  | 0, acc, _ => [acc.reverse]
  | _ + 1, acc, [] => [acc.reverse]
  | fuel + 1, acc, c :: rest =>
    if pyIsSpace c && (match rest with | c2 :: _ => pyIsSpace c2 | [] => false) then
      acc.reverse :: wsRunSplitGo fuel [] (rest.dropWhile pyIsSpace)
    else wsRunSplitGo fuel (c :: acc) rest

/-- `[seg for seg in re.split(r"\s{2,}", line) if seg]`. -/
def splitOnWsRuns (l : List Char) : List (List Char) :=
  (wsRunSplitGo l.length [] l).filter (· ≠ [])

/-- `_is_table_like_text`: tab/pipe separators, or several whitespace-aligned
columns, mark a text as tabular.  The mean-column comparison
`sum/len > 1.5` is expressed integrally as `2·sum > 3·len`. -/
def isTableLikeText (text : String) : Bool :=
  if text.data = [] then false
  else
    if (nonBlankLines text.data).length < 2 then false
    else if text.data.contains '|' || text.data.contains '\t' then true
    else
      ((nonBlankLines text.data).map fun l => (splitOnWsRuns l).length).any (· ≥ 2) &&
        decide (3 * ((nonBlankLines text.data).map fun l => (splitOnWsRuns l).length).length <
          2 * ((nonBlankLines text.data).map fun l => (splitOnWsRuns l).length).sum)

/-- `flag_table_like_blocks`: reclassify table-looking blocks in place. -/
def flagTableLikeBlocks (blocks : List Block) : List Block :=
  blocks.map fun b =>
    if b.btype = some "table_block" then b
    else if isTableLikeText (stripStr b.text) then { b with btype := some "table_block" } else b

/-- Modelled from the spec (section 4.5) as amended: a block text is
table-like when it has at least two non-blank lines and either contains a
tab or pipe separator, or some line splits into at least two segments on
runs of two or more spaces with a mean segment count above 1.5. -/
def specTableLikeAmended (text : String) : Bool :=
  decide (2 ≤ (nonBlankLines text.data).length) &&
    (text.data.contains '|' || text.data.contains '\t' ||
      (((nonBlankLines text.data).map fun l => (splitOnWsRuns l).length).any (· ≥ 2) &&
        decide (3 * ((nonBlankLines text.data).map fun l => (splitOnWsRuns l).length).length <
          2 * ((nonBlankLines text.data).map fun l => (splitOnWsRuns l).length).sum)))

/-!
## Repetition filter (src/infra/parsers/pdf/pdfplumber_parser.py)
-/

/-- A parsed page: its page_number entry and its block list. -/
structure Page where
  pageNumber : Option ℤ
  blocks : List Block
deriving DecidableEq

/-- Python round(x, 1) (the half-even versus half-up difference for
floats is immaterial to the claims below, which never hit a tie). -/
def round1 (q : ℚ) : ℚ :=
  ((round (q * 10) : ℤ) : ℚ) / 10

/-- Key used by `_remove_repeated_headers_footers`:
text, font name and the font size rounded to one decimal (Python builds
the f-string "text|font|size"; the tuple is its injective counterpart). -/
def hfKey (b : Block) : String × Option String × ℚ :=
  (b.text, b.fontName, round1 (b.fontSize.getD 0))

/-- Maximum bottom coordinate of any block bbox on the page, the page
height proxy (0.0 when no block has a bbox). -/
def pageMaxY (p : Page) : ℚ :=
  p.blocks.foldl (fun acc b => match b.bbox with | some v => max acc v.2.2.2 | none => acc) 0

/-- Occurrences of a key among header candidates (top y within the top
margin band) across all pages of positive height. -/
def headerCount (mr : ℚ) (pages : List Page) (k : String × Option String × ℚ) : ℕ :=
  (pages.map fun p =>
    if pageMaxY p ≤ 0 then 0
    else (p.blocks.filter fun b =>
      match b.bbox with
      | some v => decide (v.2.1 ≤ mr * pageMaxY p) && decide (hfKey b = k)
      | none => false).length).sum

/-- Occurrences of a key among footer candidates (bottom y within the
bottom margin band) across all pages of positive height. -/
def footerCount (mr : ℚ) (pages : List Page) (k : String × Option String × ℚ) : ℕ :=
  (pages.map fun p =>
    if pageMaxY p ≤ 0 then 0
    else (p.blocks.filter fun b =>
      match b.bbox with
      | some v => decide (v.2.2.2 ≥ (1 - mr) * pageMaxY p) && decide (hfKey b = k)
      | none => false).length).sum

/-- `_remove_repeated_headers_footers`: drop blocks whose key repeats at
least minOcc times in the same margin band, judged on each page by that
page's own height proxy. -/
def removeRepeatedHeadersFooters (mr : ℚ) (minOcc : ℕ) (pages : List Page) : List Page :=
  pages.map fun p =>
    if pageMaxY p ≤ 0 then p
    else
      { pageNumber := p.pageNumber,
        blocks := p.blocks.filter fun b =>
          !(match b.bbox with
            | some v => decide (v.2.1 ≤ mr * pageMaxY p) &&
                decide (headerCount mr pages (hfKey b) ≥ minOcc)
            | none => false) &&
          !(match b.bbox with
            | some v => decide (v.2.2.2 ≥ (1 - mr) * pageMaxY p) &&
                decide (footerCount mr pages (hfKey b) ≥ minOcc)
            | none => false) }

/-- `_block_signature`: whitespace-normalised text, lowercased font name
(empty for a missing name) and the font size rounded to one decimal. -/
def blockSignature (b : Block) : String × String × Option ℚ :=
  (String.intercalate " " ((wordsOf b.text.data).map fun w => String.mk w),
    lowerStr (b.fontName.getD ""), b.fontSize.map round1)

/-- Number of blocks across all pages carrying the given signature. -/
def sigCount (pages : List Page) (k : String × String × Option ℚ) : ℕ :=
  (pages.map fun p => (p.blocks.filter fun b => decide (blockSignature b = k)).length).sum

/-- `_drop_globally_repeated_blocks`: drop every block whose signature
occurs at least minOcc times anywhere in the document. -/
def dropGloballyRepeatedBlocks (minOcc : ℕ) (pages : List Page) : List Page :=
  pages.map fun p =>
    { pageNumber := p.pageNumber,
      blocks := p.blocks.filter fun b => !decide (sigCount pages (blockSignature b) ≥ minOcc) }

/-!
## Dynamic chunker (src/core/chunking/dynamic_chunker.py)

`build_chunks` mutates each processed block in place via
`block.setdefault("page_number", page_idx)`; the embedding performs that
mutation up front (every block is mutated exactly once, before any read
of its page_number) and returns the mutated pages alongside the chunks.
The uuid4 chunk id is modelled by a running counter.
-/

/-- A heading-anchored section chunk. -/
structure Chunk where
  id : ℕ
  title : String
  headingLevel : ℤ
  text : String
  blocks : List Block
  pageNumbers : List ℤ
deriving DecidableEq

/-- `block.setdefault("page_number", pageIdx)`. -/
def setdefaultPageNumber (pageIdx : ℤ) (b : Block) : Block :=
  match b.pageNumber with
  | some _ => b
  | none => { b with pageNumber := some pageIdx }

/-- The mutation `build_chunks` applies to its input pages: each block of
the page at (1-based) position idx receives that position as its
page_number unless it already has one. -/
def mutatePagesGo (idx : ℤ) : List Page → List Page
  | [] => []
  | p :: rest =>
    { pageNumber := p.pageNumber, blocks := p.blocks.map (setdefaultPageNumber idx) } ::
      mutatePagesGo (idx + 1) rest

/-- `_collect_page_numbers`: sorted unique page numbers of the blocks. -/
def collectPageNumbers (blocks : List Block) : List ℤ :=
  sortLe ((blocks.filterMap (·.pageNumber)).dedup)

/-- `_visible_blocks`: drop the leading level-1 heading block. -/
def visibleBlocks (blocks : List Block) : List Block :=
  match blocks with
  | [] => []
  | b :: rest => if b.btype = some "heading" ∧ b.level = some 1 then rest else b :: rest

/-- Chunk body text: newline-joined visible block texts, stripped. -/
def chunkText (blocks : List Block) : String :=
  stripStr (String.intercalate "\n" ((visibleBlocks blocks).map (·.text)))

/-- Build one finalized Chunk record. -/
def mkChunk (id : ℕ) (title : String) (lvl : ℤ) (blocks : List Block) : Chunk :=
  { id := id, title := title, headingLevel := lvl, text := chunkText blocks,
    blocks := blocks, pageNumbers := collectPageNumbers blocks }

/-- Mutable state of the build_chunks loop. -/
structure ChunkState where
  chunks : List Chunk
  curBlocks : List Block
  curTitle : Option String
  curLevel : Option ℤ
  nextId : ℕ
deriving DecidableEq

/-- The nested `finalize()` closure: emit the open section if complete,
then reset the current section. -/
def finalizeState (st : ChunkState) : ChunkState :=
  match st.curTitle, st.curLevel, st.curBlocks with
  | some t, some l, b :: bs =>
    { chunks := st.chunks ++ [mkChunk st.nextId t l (b :: bs)],
      curBlocks := [], curTitle := none, curLevel := none, nextId := st.nextId + 1 }
  | _, _, _ => { st with curBlocks := [], curTitle := none, curLevel := none }

/-- One iteration of the block loop of `build_chunks` (the two trailing
`current_blocks.append(block)` branches of the source coincide). -/
def chunkStep (includeTables : Bool) (maxHeadingLevel : ℤ) (allowPreamble : Bool)
    (st : ChunkState) (b : Block) : ChunkState :=
  if b.btype = some "table_block" ∧ includeTables = false then st
  else if b.btype = some "heading" ∧ b.level = some 1 then
    { finalizeState st with
      curTitle := some (stripStr b.text), curLevel := some 1, curBlocks := [b] }
  else if st.curTitle = none then
    if allowPreamble = true then
      { st with curTitle := some "Preamble", curLevel := some 0, curBlocks := [b] }
    else st
  else if b.btype = some "heading" ∧
      (b.level.map fun l => decide (1 < l ∧ l ≤ maxHeadingLevel)).getD false = true then
    { st with curBlocks := st.curBlocks ++ [b] }
  else { st with curBlocks := st.curBlocks ++ [b] }

/-- Initial loop state. -/
def chunkStateNil : ChunkState :=
  { chunks := [], curBlocks := [], curTitle := none, curLevel := none, nextId := 0 }

/-- `DynamicChunker.build_chunks`: returns the emitted chunks and, to make
the in-place `setdefault` mutation observable, the mutated input pages. -/
def buildChunks (includeTables : Bool) (maxHeadingLevel : ℤ) (allowPreamble : Bool)
    (pages : List Page) : List Chunk × List Page :=
  let mpages := mutatePagesGo 1 pages
  let st := ((mpages.map (·.blocks)).flatten).foldl
    (chunkStep includeTables maxHeadingLevel allowPreamble) chunkStateNil
  ((finalizeState st).chunks, mpages)

/-- Disjunction of all lexical heading patterns of `_classify_block`
(including the word-count guard of the all-caps branch). -/
def matchesHeadingPattern (text : String) : Bool :=
  matchArt text.data || matchCapo text.data || matchCapitolo text.data ||
    matchTitolo text.data || matchNumL2 text.data || matchNumL1 text.data ||
    (matchAllCaps text.data && decide ((wordsOf text.data).length ≤ 8))

/-- A five-block page: one 20pt title, one bold 18pt block matching no
lexical pattern, three 10pt body blocks.  Median size 10, threshold 11.5,
size ranks (20, 1), (18, 2), (10, 3). -/
def boldPage : List Block :=
  [ { text := "huge title", fontSize := some 20, fontName := none, btype := none,
      level := none, bbox := none, pageNumber := none },
    { text := "hello world", fontSize := some 18, fontName := some "Arial-Bold",
      btype := none, level := none, bbox := none, pageNumber := none },
    { text := "body one", fontSize := some 10, fontName := none, btype := none,
      level := none, bbox := none, pageNumber := none },
    { text := "body two", fontSize := some 10, fontName := none, btype := none,
      level := none, bbox := none, pageNumber := none },
    { text := "body three", fontSize := some 10, fontName := none, btype := none,
      level := none, bbox := none, pageNumber := none } ]

/-- A positioned block with the given text and vertical extent. -/
def marginBlock (t : String) (top bot : ℚ) : Block :=
  { text := t, fontSize := none, fontName := none, btype := none, level := none,
    bbox := some (0, top, 10, bot), pageNumber := none }

/-- Two identical pages of height 100: a body block (y 50-60), a block
just above the footer band (y 85-88) and a bottom footer block
(y 95-100).  Removing the bottom footer lowers the page-height proxy from
100 to 88, putting the 85-88 block inside the new footer band. -/
def hfPages : List Page :=
  [ { pageNumber := some 1,
      blocks := [marginBlock "Body" 50 60, marginBlock "FooterB" 85 88,
        marginBlock "FooterC" 95 100] },
    { pageNumber := some 2,
      blocks := [marginBlock "Body" 50 60, marginBlock "FooterB" 85 88,
        marginBlock "FooterC" 95 100] } ]

/-- A single-line paragraph block containing a pipe separator. -/
def pipeBlock : Block :=
  { text := "a | b", fontSize := none, fontName := none, btype := some "paragraph",
    level := none, bbox := none, pageNumber := none }

/-- Fallback block value for positional lookups. -/
def dummyBlock : Block :=
  { text := "", fontSize := none, fontName := none, btype := none, level := none,
    bbox := none, pageNumber := none }

/-- Fallback page value for positional lookups. -/
def dummyPage : Page :=
  { pageNumber := none, blocks := [] }

/-- A level-1 heading block with no page_number key. -/
def h1Block : Block :=
  { text := "T", fontSize := none, fontName := none, btype := some "heading",
    level := some 1, bbox := none, pageNumber := none }

/-- A single page whose page_number field is 5 while its position is 1. -/
def h1Page : Page :=
  { pageNumber := some 5, blocks := [h1Block] }

/-- A page numbered 7 whose two blocks have no page_number and
page_number 3 respectively. -/
def mutPage : Page :=
  { pageNumber := some 7, blocks := [dummyBlock, { dummyBlock with pageNumber := some 3 }] }

/-- A chunk page number is traceable: it was already present on some
input block, or it is one of the 1-based positions of the input pages. -/
def pageNumberTraceable (pages : List Page) (pn : ℤ) : Prop :=
  (∃ p ∈ pages, ∃ b ∈ p.blocks, b.pageNumber = some pn) ∨
    (1 ≤ pn ∧ pn ≤ (pages.length : ℤ))

/-- Loop invariant of build_chunks: all page numbers reachable from the
state are traceable to the input pages. -/
def chunkStateOK (pages : List Page) (st : ChunkState) : Prop :=
  (∀ c ∈ st.chunks, ∀ pn ∈ c.pageNumbers, pageNumberTraceable pages pn) ∧
    (∀ b ∈ st.curBlocks, ∀ pn, b.pageNumber = some pn → pageNumberTraceable pages pn)

/-!
## Theorems
-/

/-- The fueled loop agrees with the specified scan whenever the fuel
exceeds the remaining distance to the end of the token list. -/
theorem buildSpansGo_eq_specScanGo (maxTokens minTokens overlap n : ℕ)
    (hov : overlap < maxTokens) :
    ∀ fuel start, n - start < fuel →
      buildSpansGo maxTokens minTokens overlap n fuel start =
        specScanGo maxTokens minTokens overlap n hov start := by
  intro fuel
  induction fuel with
  | zero => intro start h; omega
  | succ fuel ih =>
    intro start h
    rw [specScanGo]
    simp only [buildSpansGo]
    by_cases h1 : start < n
    · rw [if_pos h1, if_pos h1]
      by_cases h2 : min (start + maxTokens) n - start < minTokens ∧ start ≠ 0
      · rw [if_pos h2, if_pos h2]
      · rw [if_neg h2, if_neg h2]
        by_cases h3 : min (start + maxTokens) n = n
        · rw [if_pos h3, dif_pos h3]
        · rw [if_neg h3, dif_neg h3, ih _ (by omega)]
    · rw [if_neg h1, if_neg h1]

/-- Every span the loop emits lies between the current start and n, with a
nonempty window. -/
theorem buildSpansGo_mem (maxTokens minTokens overlap n : ℕ) (hov : overlap < maxTokens) :
    ∀ fuel start p, p ∈ buildSpansGo maxTokens minTokens overlap n fuel start →
      start ≤ p.1 ∧ p.1 < p.2 ∧ p.2 ≤ n := by
  intro fuel
  induction fuel with
  | zero => intro start p hp; simp [buildSpansGo] at hp
  | succ fuel ih =>
    intro start p hp
    simp only [buildSpansGo] at hp
    by_cases h1 : start < n
    · rw [if_pos h1] at hp
      by_cases h2 : min (start + maxTokens) n - start < minTokens ∧ start ≠ 0
      · rw [if_pos h2] at hp; simp at hp
      · rw [if_neg h2] at hp
        by_cases h3 : min (start + maxTokens) n = n
        · rw [if_pos h3] at hp
          simp only [List.mem_singleton] at hp
          subst hp
          refine ⟨le_refl _, ?_, ?_⟩
          · simp; omega
          · simp
        · rw [if_neg h3] at hp
          rcases List.mem_cons.mp hp with h | h
          · subst h
            refine ⟨le_refl _, ?_, ?_⟩
            · simp; omega
            · simp
          · have hrec := ih _ _ h
            have hs : start ≤ min (start + maxTokens) n - overlap := by omega
            exact ⟨le_trans hs hrec.1, hrec.2.1, hrec.2.2⟩
    · rw [if_neg h1] at hp; simp at hp

/-- A nonempty loop result starts with the span anchored at the current
start position. -/
theorem buildSpansGo_head (maxTokens minTokens overlap n : ℕ) :
    ∀ fuel start x l, buildSpansGo maxTokens minTokens overlap n fuel start = x :: l →
      x.1 = start ∧ x.2 = min (start + maxTokens) n := by
  intro fuel start x l h
  cases fuel with
  | zero => simp [buildSpansGo] at h
  | succ fuel =>
    simp only [buildSpansGo] at h
    by_cases h1 : start < n
    · rw [if_pos h1] at h
      by_cases h2 : min (start + maxTokens) n - start < minTokens ∧ start ≠ 0
      · rw [if_pos h2] at h; simp at h
      · rw [if_neg h2] at h
        by_cases h3 : min (start + maxTokens) n = n
        · rw [if_pos h3] at h
          obtain ⟨h4, -⟩ := List.cons.injEq .. ▸ h
          subst h4; exact ⟨rfl, rfl⟩
        · rw [if_neg h3] at h
          obtain ⟨h4, -⟩ := List.cons.injEq .. ▸ h
          subst h4; exact ⟨rfl, rfl⟩
    · rw [if_neg h1] at h; simp at h

/-- Consecutive spans emitted by the loop overlap by exactly the overlap
parameter. -/
theorem buildSpansGo_chain (maxTokens minTokens overlap n : ℕ) (hov : overlap < maxTokens) :
    ∀ fuel start, List.Chain' (fun a b => b.1 + overlap = a.2)
      (buildSpansGo maxTokens minTokens overlap n fuel start) := by
  intro fuel
  induction fuel with
  | zero => intro start; simp [buildSpansGo]
  | succ fuel ih =>
    intro start
    simp only [buildSpansGo]
    by_cases h1 : start < n
    · rw [if_pos h1]
      by_cases h2 : min (start + maxTokens) n - start < minTokens ∧ start ≠ 0
      · rw [if_pos h2]; exact List.chain'_nil
      · rw [if_neg h2]
        by_cases h3 : min (start + maxTokens) n = n
        · rw [if_pos h3]; exact List.chain'_singleton _
        · rw [if_neg h3]
          rw [List.chain'_cons']
          refine ⟨?_, ih _⟩
          intro y hy
          cases hrec : buildSpansGo maxTokens minTokens overlap n fuel
              (min (start + maxTokens) n - overlap) with
          | nil => rw [hrec] at hy; simp at hy
          | cons z zs =>
            rw [hrec] at hy
            simp only [List.head?_cons, Option.mem_def, Option.some.injEq] at hy
            subst hy
            have hz := (buildSpansGo_head maxTokens minTokens overlap n fuel _ z zs hrec).1
            simp only [hz]
            omega
    · rw [if_neg h1]; exact List.chain'_nil

set_option maxRecDepth 8000 in
/-- Claim C1: the token-chunker's span builder follows the specified
forward scan (windows end at min(start + max_tokens, n), a short window
with start ≠ 0 stops the scan unemitted, a window reaching n stops it,
and otherwise the scan continues from max(0, end - overlap_tokens)), and
on 1000 tokens with max 800 / min 400 / overlap 120 it emits exactly
(0, 800), while on 23 tokens with max 10 / min 3 / overlap 2 it emits
exactly (0, 10), (8, 18), (16, 23). -/
theorem buildSpans_forward_scan :
    (∀ (tokens : List String) (maxTokens minTokens overlap : ℕ),
        0 < minTokens → minTokens ≤ maxTokens → ∀ hov : overlap < maxTokens,
          buildSpans tokens maxTokens overlap minTokens =
            specScan tokens maxTokens overlap minTokens hov) ∧
    buildSpans (List.replicate 1000 "tok") 800 120 400 = [(0, 800)] ∧
    buildSpans (List.replicate 23 "tok") 10 2 3 = [(0, 10), (8, 18), (16, 23)] := by
  refine ⟨?_, by decide, by decide⟩
  intro tokens maxTokens minTokens overlap hmin hmm hov
  unfold buildSpans specScan
  by_cases h0 : tokens.length = 0
  · rw [if_pos h0, h0, specScanGo]
    simp
  · rw [if_neg h0]
    exact buildSpansGo_eq_specScanGo _ _ _ _ hov _ _ (by omega)

/-- Witness for C1: the scan equivalence instantiated on the 23-token
example with valid parameters. -/
theorem buildSpans_forward_scan_witness :
    buildSpans (List.replicate 23 "tok") 10 2 3 =
      specScan (List.replicate 23 "tok") 10 2 3 (by decide) :=
  buildSpans_forward_scan.1 (List.replicate 23 "tok") 10 3 2 (by decide) (by decide) (by decide)

/-- Claim C7: for valid parameters every produced span (start, end)
satisfies 0 ≤ start < end ≤ n, and each consecutive pair of spans
overlaps by exactly overlap_tokens (the later start plus the overlap is
the earlier end). -/
theorem buildSpans_valid_spans :
    ∀ (tokens : List String) (maxTokens minTokens overlap : ℕ),
      0 < minTokens → minTokens ≤ maxTokens → overlap < maxTokens →
      (∀ p ∈ buildSpans tokens maxTokens overlap minTokens,
          0 ≤ p.1 ∧ p.1 < p.2 ∧ p.2 ≤ tokens.length) ∧
      List.Chain' (fun a b => b.1 + overlap = a.2)
        (buildSpans tokens maxTokens overlap minTokens) := by
  intro tokens maxTokens minTokens overlap hmin hmm hov
  constructor
  · intro p hp
    unfold buildSpans at hp
    by_cases h0 : tokens.length = 0
    · rw [if_pos h0] at hp; simp at hp
    · rw [if_neg h0] at hp
      have h := buildSpansGo_mem _ _ _ _ hov _ _ _ hp
      exact ⟨Nat.zero_le _, h.2.1, h.2.2⟩
  · unfold buildSpans
    by_cases h0 : tokens.length = 0
    · rw [if_pos h0]; exact List.chain'_nil
    · rw [if_neg h0]; exact buildSpansGo_chain _ _ _ _ hov _ _

/-- Witness for C7: span validity and exact overlap on the 23-token
example. -/
theorem buildSpans_valid_spans_witness :
    (∀ p ∈ buildSpans (List.replicate 23 "tok") 10 2 3,
        0 ≤ p.1 ∧ p.1 < p.2 ∧ p.2 ≤ (List.replicate 23 "tok").length) ∧
    List.Chain' (fun a b => b.1 + 2 = a.2) (buildSpans (List.replicate 23 "tok") 10 2 3) :=
  buildSpans_valid_spans (List.replicate 23 "tok") 10 3 2 (by decide) (by decide) (by decide)

/-- Claim C8: TokenChunker construction succeeds exactly on parameters
with 0 < min_tokens ≤ max_tokens and 0 ≤ overlap_tokens < max_tokens and
raises ValueError exactly on their violation; validation happens before
any state is stored, so a constructed chunker carries only valid
parameters (its chunk method, embedded as the total function buildSpans,
raises nothing). -/
theorem tokenChunkerInit_validation :
    ∀ maxTokens minTokens overlapTokens : ℤ,
      (tokenChunkerInit maxTokens minTokens overlapTokens =
          Except.ok (maxTokens, minTokens, overlapTokens) ↔
        0 < minTokens ∧ minTokens ≤ maxTokens ∧
          0 ≤ overlapTokens ∧ overlapTokens < maxTokens) ∧
      ((∃ msg, tokenChunkerInit maxTokens minTokens overlapTokens = Except.error msg) ↔
        ¬(0 < minTokens ∧ minTokens ≤ maxTokens ∧
          0 ≤ overlapTokens ∧ overlapTokens < maxTokens)) := by
  intro m mi ov
  unfold tokenChunkerInit
  split_ifs with h1 h2 h3 <;> constructor <;> simp <;> omega

/-- Witness for C8: the default parameters (800, 400, 120) construct
successfully. -/
theorem tokenChunkerInit_validation_witness :
    tokenChunkerInit 800 400 120 = Except.ok (800, 400, 120) :=
  (tokenChunkerInit_validation 800 400 120).1.mpr (by norm_num)

/-- A map relates pointwise to its source list. -/
theorem forall2_of_map {α : Type} (R : α → α → Prop) (f : α → α) :
    ∀ l : List α, (∀ b ∈ l, R b (f b)) → List.Forall₂ R l (l.map f) := by
  intro l
  induction l with
  | nil => intro _; exact List.Forall₂.nil
  | cons b rest ih =>
    intro h
    exact List.Forall₂.cons (h b (List.mem_cons_self b rest))
      (ih fun x hx => h x (List.mem_cons_of_mem b hx))

/-- Claim C9: tag_headings keeps the block list length and order and only
rewrites the type and level entries; text, bbox, font size, font name and
page number of every block are unchanged. -/
theorem tagHeadings_non_destructive :
    ∀ (blocks : List Block) (boost : ℚ),
      (tagHeadings blocks boost).length = blocks.length ∧
      List.Forall₂ (fun b c => c.text = b.text ∧ c.bbox = b.bbox ∧ c.fontSize = b.fontSize ∧
        c.fontName = b.fontName ∧ c.pageNumber = b.pageNumber) blocks (tagHeadings blocks boost) := by
  intro blocks boost
  refine ⟨by simp [tagHeadings], ?_⟩
  apply forall2_of_map
  intro b _
  exact ⟨rfl, rfl, rfl, rfl, rfl⟩

/-- Claim C6: each explicit lexical pattern wins outright over the font
heuristic, assigning its fixed level in the priority order of the source
chain (Art → 2; CAPO/Capitolo/Titolo → 1; N.N. → 2; N. → 1; short
all-caps → 1); in particular the text "Art. 5 Obblighi del fornitore" is
tagged heading level 2 for every font size and font name. -/
theorem classifyBlock_lexical_priority :
    (∀ (text : String) (fs : ℚ) (fn : Option String) (th : ℚ) (lv : List (ℚ × ℤ)),
        matchArt text.data = true →
        classifyBlock text fs fn th lv = ("heading", some 2)) ∧
    (∀ (text : String) (fs : ℚ) (fn : Option String) (th : ℚ) (lv : List (ℚ × ℤ)),
        matchArt text.data = false →
        (matchCapo text.data || matchCapitolo text.data || matchTitolo text.data) = true →
        classifyBlock text fs fn th lv = ("heading", some 1)) ∧
    (∀ (text : String) (fs : ℚ) (fn : Option String) (th : ℚ) (lv : List (ℚ × ℤ)),
        matchArt text.data = false →
        (matchCapo text.data || matchCapitolo text.data || matchTitolo text.data) = false →
        matchNumL2 text.data = true →
        classifyBlock text fs fn th lv = ("heading", some 2)) ∧
    (∀ (text : String) (fs : ℚ) (fn : Option String) (th : ℚ) (lv : List (ℚ × ℤ)),
        matchArt text.data = false →
        (matchCapo text.data || matchCapitolo text.data || matchTitolo text.data) = false →
        matchNumL2 text.data = false → matchNumL1 text.data = true →
        classifyBlock text fs fn th lv = ("heading", some 1)) ∧
    (∀ (text : String) (fs : ℚ) (fn : Option String) (th : ℚ) (lv : List (ℚ × ℤ)),
        matchArt text.data = false →
        (matchCapo text.data || matchCapitolo text.data || matchTitolo text.data) = false →
        matchNumL2 text.data = false → matchNumL1 text.data = false →
        (matchAllCaps text.data && decide ((wordsOf text.data).length ≤ 8)) = true →
        classifyBlock text fs fn th lv = ("heading", some 1)) ∧
    (∀ (fs : ℚ) (fn : Option String) (th : ℚ) (lv : List (ℚ × ℤ)),
        classifyBlock "Art. 5 Obblighi del fornitore" fs fn th lv = ("heading", some 2)) := by
  have hart : ∀ (text : String) (fs : ℚ) (fn : Option String) (th : ℚ) (lv : List (ℚ × ℤ)),
      matchArt text.data = true → classifyBlock text fs fn th lv = ("heading", some 2) := by
    intro text fs fn th lv h
    simp [classifyBlock, h]
  refine ⟨hart, ?_, ?_, ?_, ?_, fun fs fn th lv => hart _ fs fn th lv (by decide)⟩
  · intro text fs fn th lv h1 h2
    simp [classifyBlock, h1, h2]
  · intro text fs fn th lv h1 h2 h3
    simp at h2
    simp [classifyBlock, h1, h2.1.1, h2.1.2, h2.2, h3]
  · intro text fs fn th lv h1 h2 h3 h4
    simp at h2
    simp [classifyBlock, h1, h2.1.1, h2.1.2, h2.2, h3, h4]
  · intro text fs fn th lv h1 h2 h3 h4 h5
    simp at h2
    simp [classifyBlock, h1, h2.1.1, h2.1.2, h2.2, h3, h4, h5]

/-- Witness for C6: the concrete Art heading with concrete font data. -/
theorem classifyBlock_lexical_priority_witness :
    classifyBlock "Art. 5 Obblighi del fornitore" 5 (some "Helvetica") 20 [(5, 1)] =
      ("heading", some 2) :=
  classifyBlock_lexical_priority.1 "Art. 5 Obblighi del fornitore" 5 (some "Helvetica") 20
    [(5, 1)] (by decide)

/-- Counterexample for C2: on the boldPage the bold 18pt block matches no
lexical pattern and its size 18 lies above the threshold 11.5 = median 10
plus boost 1.5, so the claim predicts heading level 1, but tag_headings
assigns level 2 (the rank of 18 among the distinct sizes 20, 18, 10): the
rank-based branch of _classify_block always overrides the preliminary
level-1 assignment. -/
theorem tagHeadings_bold_above_threshold_cex :
    matchesHeadingPattern "hello world" = false ∧
    isBold (some "Arial-Bold") = true ∧
    fontThreshold boldPage (3 / 2) = 23 / 2 ∧
    ((23 : ℚ) / 2 < 18) ∧
    ((tagHeadings boldPage (3 / 2)).getD 1 dummyBlock).btype = some "heading" ∧
    ((tagHeadings boldPage (3 / 2)).getD 1 dummyBlock).level = some 2 ∧
    ((tagHeadings boldPage (3 / 2)).getD 1 dummyBlock).level ≠ some 1 := by
  refine ⟨by decide, by decide, by with_unfolding_all decide, by norm_num,
    by with_unfolding_all decide, by with_unfolding_all decide, by with_unfolding_all decide⟩

/-- Claim C2 as amended: a block matching no lexical heading pattern,
with a bold font name and a size at or above the (positive) threshold, is
classified as a heading whose level is the rank of the distinct font size
numerically closest to the block's size — not level 1 when the size
exceeds the threshold: the rank-based assignment always overrides the
preliminary level-1 assignment of the bold-above-threshold test. -/
theorem classifyBlock_bold_closest_rank :
    ∀ (text : String) (fs : ℚ) (fn : Option String) (th : ℚ) (lv : List (ℚ × ℤ)),
      matchesHeadingPattern text = false → isBold fn = true → 0 < th → th ≤ fs → lv ≠ [] →
      classifyBlock text fs fn th lv = ("heading", some (closestRank fs lv)) := by
  intro text fs fn th lv hpat hbold hth hfs hlv
  simp only [matchesHeadingPattern, Bool.or_eq_false_iff, Bool.and_eq_false_iff] at hpat
  obtain ⟨⟨⟨⟨⟨h1, h2⟩, h3⟩, h4⟩, h5⟩, h6⟩ := hpat
  have hcaps : (matchAllCaps text.data && decide ((wordsOf text.data).length ≤ 8)) = false := by
    rcases h6 with h | h <;> simp [h]
  simp [classifyBlock, h1, h2, h3, h4, h5, hcaps, hbold, hlv, lt_of_lt_of_le hth hfs]

/-- Witness for C2: the amended statement instantiated on the bold 18pt
block of the boldPage context (threshold 11.5, ranks (20,1)(18,2)(10,3)),
where the closest rank evaluates to 2. -/
theorem classifyBlock_bold_closest_rank_witness :
    classifyBlock "hello world" 18 (some "Arial-Bold") (23 / 2) [(20, 1), (18, 2), (10, 3)] =
      ("heading", some (closestRank 18 [(20, 1), (18, 2), (10, 3)])) :=
  classifyBlock_bold_closest_rank "hello world" 18 (some "Arial-Bold") (23 / 2)
    [(20, 1), (18, 2), (10, 3)] (by decide) (by decide) (by norm_num) (by norm_num) (by decide)

/-- Counterexample for C5: a paragraph block whose single-line text
contains a pipe separator is left unchanged by the table heuristic — the
two-non-blank-lines precondition precedes the pipe/tab test — while the
claim requires it to be reclassified table_block. -/
theorem flagTableLikeBlocks_pipe_single_line_cex :
    flagTableLikeBlocks [pipeBlock] = [pipeBlock] ∧
    pipeBlock.text.data.contains '|' = true ∧
    pipeBlock.btype ≠ some "table_block" := by
  refine ⟨by decide, by decide, by decide⟩

/-- Claim C5 as amended: a block not already typed table_block is
reclassified exactly when its stripped text has at least two non-blank
lines and either contains a tab or pipe separator, or splitting lines on
runs of two or more spaces yields at least two segments on some line with
a mean segment count above 1.5. -/
theorem flagTableLikeBlocks_amended_spec :
    (∀ text : String, isTableLikeText text = specTableLikeAmended text) ∧
    (∀ blocks : List Block, flagTableLikeBlocks blocks = blocks.map fun b =>
      if b.btype = some "table_block" then b
      else if specTableLikeAmended (stripStr b.text) then { b with btype := some "table_block" }
      else b) := by
  have hmain : ∀ text : String, isTableLikeText text = specTableLikeAmended text := by
    intro text
    unfold isTableLikeText specTableLikeAmended
    by_cases h0 : text.data = []
    · rw [if_pos h0, h0]
      simp [nonBlankLines, splitOnLineBreaks, splitOnLineBreaksGo]
    · rw [if_neg h0]
      by_cases h1 : (nonBlankLines text.data).length < 2
      · rw [if_pos h1]
        have h2 : decide (2 ≤ (nonBlankLines text.data).length) = false := by
          simp; omega
        rw [h2, Bool.false_and]
      · rw [if_neg h1]
        have h2 : decide (2 ≤ (nonBlankLines text.data).length) = true := by
          simp; omega
        rw [h2, Bool.true_and]
        by_cases h3 : (text.data.contains '|' || text.data.contains '\t') = true
        · rw [if_pos h3]
          have h5 : text.data.contains '|' = true ∨ text.data.contains '\t' = true := by
            simpa using h3
          rcases h5 with h | h <;>
            simp only [h, Bool.true_or, Bool.or_true]
        · rw [if_neg h3]
          have h4 : text.data.contains '|' = false ∧ text.data.contains '\t' = false := by
            simpa using h3
          simp only [h4.1, h4.2, Bool.false_or]
  refine ⟨hmain, ?_⟩
  intro blocks
  unfold flagTableLikeBlocks
  simp only [hmain]

/-- Lists mapped by a pointwise-identical function are unchanged. -/
theorem map_eq_self_of_eq {α : Type} (f : α → α) :
    ∀ l : List α, (∀ x ∈ l, f x = x) → l.map f = l := by
  intro l
  induction l with
  | nil => intro _; rfl
  | cons x xs ih =>
    intro h
    simp only [List.map_cons]
    rw [h x (by simp), ih fun y hy => h y (by simp [hy])]

/-- Filtering twice counts no more matches than filtering once. -/
theorem length_filter_filter_le {α : Type} (p q : α → Bool) (l : List α) :
    ((l.filter p).filter q).length ≤ (l.filter q).length :=
  List.Sublist.length_le (List.Sublist.filter q (List.filter_sublist l))

/-- Dropping blocks can only lower a signature's occurrence count. -/
theorem sigCount_filter_le (pages : List Page) (f : Block → Bool)
    (k : String × String × Option ℚ) :
    sigCount (pages.map fun p => { pageNumber := p.pageNumber, blocks := p.blocks.filter f }) k ≤
      sigCount pages k := by
  unfold sigCount
  rw [List.map_map]
  apply List.sum_le_sum
  intro p hp
  exact length_filter_filter_le f _ p.blocks

/-- Claim C3 (amended part): the global-repetition pass is idempotent — a
second application of _drop_globally_repeated_blocks removes nothing new,
because every signature kept by the first pass occurs fewer than
min_occurrences times and counts only shrink. -/
theorem dropGloballyRepeatedBlocks_idempotent :
    ∀ (minOcc : ℕ) (pages : List Page),
      dropGloballyRepeatedBlocks minOcc (dropGloballyRepeatedBlocks minOcc pages) =
        dropGloballyRepeatedBlocks minOcc pages := by
  intro minOcc pages
  conv_lhs => rw [dropGloballyRepeatedBlocks]
  apply map_eq_self_of_eq
  intro p hp
  rw [dropGloballyRepeatedBlocks] at hp
  obtain ⟨q, hq, rfl⟩ := List.mem_map.mp hp
  have hblocks : (q.blocks.filter fun b =>
      !decide (sigCount pages (blockSignature b) ≥ minOcc)).filter (fun b =>
        !decide (sigCount (dropGloballyRepeatedBlocks minOcc pages) (blockSignature b) ≥ minOcc)) =
      q.blocks.filter fun b => !decide (sigCount pages (blockSignature b) ≥ minOcc) := by
    rw [List.filter_eq_self]
    intro b hb
    have h1 := (List.mem_filter.mp hb).2
    simp only [Bool.not_eq_true', decide_eq_false_iff_not, not_le] at h1 ⊢
    calc sigCount (dropGloballyRepeatedBlocks minOcc pages) (blockSignature b) ≤
        sigCount pages (blockSignature b) := by
          rw [dropGloballyRepeatedBlocks]
          exact sigCount_filter_le pages _ _
      _ < minOcc := h1
  simp only [hblocks]

/-- Counterexample for C3: on hfPages the first application removes the
repeated bottom footer (FooterC), which lowers the page-height proxy, and
a second application then removes FooterB as well — the header/footer
filter is not idempotent. -/
theorem removeRepeatedHeadersFooters_not_idempotent_cex :
    (removeRepeatedHeadersFooters (1 / 10) 2 hfPages).map
        (fun p => p.blocks.map (·.text)) = [["Body", "FooterB"], ["Body", "FooterB"]] ∧
    (removeRepeatedHeadersFooters (1 / 10) 2
        (removeRepeatedHeadersFooters (1 / 10) 2 hfPages)).map
        (fun p => p.blocks.map (·.text)) = [["Body"], ["Body"]] ∧
    removeRepeatedHeadersFooters (1 / 10) 2 (removeRepeatedHeadersFooters (1 / 10) 2 hfPages) ≠
      removeRepeatedHeadersFooters (1 / 10) 2 hfPages := by
  refine ⟨by with_unfolding_all decide, by with_unfolding_all decide,
    by with_unfolding_all decide⟩

/-- The page mutation preserves the number of pages. -/
theorem mutatePagesGo_length : ∀ (idx : ℤ) (pages : List Page),
    (mutatePagesGo idx pages).length = pages.length := by
  intro idx pages
  induction pages generalizing idx with
  | nil => rfl
  | cons p rest ih => simp [mutatePagesGo, ih]

/-- Page i of the mutated list keeps its page_number field and carries
blocks stamped with position idx + i. -/
theorem mutatePagesGo_getD : ∀ (pages : List Page) (idx : ℤ) (i : ℕ), i < pages.length →
    (mutatePagesGo idx pages).getD i dummyPage =
      { pageNumber := (pages.getD i dummyPage).pageNumber,
        blocks := (pages.getD i dummyPage).blocks.map
          (setdefaultPageNumber (idx + (i : ℤ))) } := by
  intro pages
  induction pages with
  | nil => intro idx i hi; simp at hi
  | cons p rest ih =>
    intro idx i hi
    cases i with
    | zero => simp [mutatePagesGo]
    | succ j =>
      have hj : j < rest.length := by simpa using hi
      have h := ih (idx + 1) j hj
      simp only [mutatePagesGo, List.getD_cons_succ, h]
      have : idx + 1 + (j : ℤ) = idx + ((j : ℤ) + 1) := by ring
      simp [this]

/-- setdefault written as a conditional update. -/
theorem setdefaultPageNumber_eq_ite (z : ℤ) (b : Block) :
    setdefaultPageNumber z b =
      if b.pageNumber = none then { b with pageNumber := some z } else b := by
  rcases b with ⟨t, fs, fn, bt, lv, bb, pn⟩
  cases pn <;> simp [setdefaultPageNumber]

/-- Mapping setdefault equals mapping the conditional update. -/
theorem map_setdefault_eq_map_ite (z : ℤ) (bs : List Block) :
    bs.map (setdefaultPageNumber z) =
      bs.map fun b => if b.pageNumber = none then { b with pageNumber := some z } else b := by
  have h : setdefaultPageNumber z = fun b =>
      if b.pageNumber = none then { b with pageNumber := some z } else b :=
    funext fun b => setdefaultPageNumber_eq_ite z b
  rw [h]

/-- Claim C10: build_chunks writes into every block lacking a page_number
key the 1-based position of its page in the input sequence (not the
page's own page_number field), and leaves existing page_number values
untouched; the pages keep their own page_number fields and lengths. -/
theorem buildChunks_setdefault_positional :
    ∀ (inc : Bool) (mhl : ℤ) (ap : Bool) (pages : List Page),
      ((buildChunks inc mhl ap pages).2).length = pages.length ∧
      ∀ i : ℕ, i < pages.length →
        (((buildChunks inc mhl ap pages).2).getD i dummyPage).pageNumber =
          (pages.getD i dummyPage).pageNumber ∧
        (((buildChunks inc mhl ap pages).2).getD i dummyPage).blocks =
          (pages.getD i dummyPage).blocks.map fun b =>
            if b.pageNumber = none then { b with pageNumber := some ((i : ℤ) + 1) } else b := by
  intro inc mhl ap pages
  have h2 : (buildChunks inc mhl ap pages).2 = mutatePagesGo 1 pages := rfl
  rw [h2]
  refine ⟨mutatePagesGo_length 1 pages, ?_⟩
  intro i hi
  rw [mutatePagesGo_getD pages 1 i hi]
  refine ⟨rfl, ?_⟩
  have hz : (1 : ℤ) + (i : ℤ) = (i : ℤ) + 1 := by ring
  rw [hz]
  exact map_setdefault_eq_map_ite _ _

/-- Witness for C10: on a single page numbered 7 at position 1, the block
without a page_number key receives 1 and the block carrying 3 keeps it. -/
theorem buildChunks_setdefault_positional_witness :
    (((buildChunks true 6 false [mutPage]).2).getD 0 dummyPage).pageNumber =
      ([mutPage].getD 0 dummyPage).pageNumber ∧
    (((buildChunks true 6 false [mutPage]).2).getD 0 dummyPage).blocks =
      ([mutPage].getD 0 dummyPage).blocks.map fun b =>
        if b.pageNumber = none then { b with pageNumber := some ((0 : ℤ) + 1) } else b :=
  (buildChunks_setdefault_positional true 6 false [mutPage]).2 0 (by decide)

/-- Membership in an insertion step. -/
theorem mem_insertLe {α : Type} [LinearOrder α] (x a : α) :
    ∀ l : List α, a ∈ insertLe x l ↔ a = x ∨ a ∈ l := by
  intro l
  induction l with
  | nil => simp [insertLe]
  | cons y ys ih =>
    by_cases h : x ≤ y
    · simp [insertLe, h]
    · simp [insertLe, h, ih]
      tauto

/-- Sorting preserves membership. -/
theorem mem_sortLe {α : Type} [LinearOrder α] (a : α) :
    ∀ l : List α, a ∈ sortLe l ↔ a ∈ l := by
  intro l
  induction l with
  | nil => simp [sortLe]
  | cons x xs ih => simp [sortLe, mem_insertLe, ih]

/-- Every collected page number comes from some block. -/
theorem mem_collectPageNumbers (pn : ℤ) (blocks : List Block) :
    pn ∈ collectPageNumbers blocks → ∃ b ∈ blocks, b.pageNumber = some pn := by
  intro h
  unfold collectPageNumbers at h
  rw [mem_sortLe, List.mem_dedup] at h
  exact List.mem_filterMap.mp h

/-- A left fold preserves any invariant preserved by each step. -/
theorem foldl_preserve {α β : Type} (P : α → Prop) (f : α → β → α) :
    ∀ (l : List β) (a : α), P a → (∀ x ∈ l, ∀ s, P s → P (f s x)) → P (l.foldl f a) := by
  intro l
  induction l with
  | nil => intro a ha _; exact ha
  | cons x xs ih =>
    intro a ha hstep
    exact ih (f a x) (hstep x (by simp) a ha)
      fun y hy s hs => hstep y (by simp [hy]) s hs

/-- Every page number carried by a block of the mutated pages either was
already on an input block or is a 1-based page position. -/
theorem mutatePagesGo_blocks_pageNumber :
    ∀ (pages : List Page) (idx : ℤ) (b : Block),
      b ∈ ((mutatePagesGo idx pages).map (·.blocks)).flatten →
      ∀ pn : ℤ, b.pageNumber = some pn →
        (∃ p ∈ pages, ∃ b0 ∈ p.blocks, b0.pageNumber = some pn) ∨
          (idx ≤ pn ∧ pn < idx + (pages.length : ℤ)) := by
  intro pages
  induction pages with
  | nil => intro idx b hb; simp [mutatePagesGo] at hb
  | cons p rest ih =>
    intro idx b hb pn hpn
    simp only [mutatePagesGo, List.map_cons, List.flatten_cons, List.mem_append] at hb
    rcases hb with hb | hb
    · obtain ⟨b0, hb0, rfl⟩ := List.mem_map.mp hb
      rcases hb0pn : b0.pageNumber with _ | v
      · simp only [setdefaultPageNumber, hb0pn, Option.some.injEq] at hpn
        right
        simp only [List.length_cons]
        push_cast
        omega
      · simp only [setdefaultPageNumber, hb0pn] at hpn
        left
        exact ⟨p, by simp, b0, hb0, by rw [hb0pn, hpn]⟩
    · rcases ih (idx + 1) b hb pn hpn with h | h
      · left
        obtain ⟨q, hq, hrest⟩ := h
        exact ⟨q, by simp [hq], hrest⟩
      · right
        simp only [List.length_cons]
        push_cast
        omega

/-- Finalizing preserves the traceability invariant. -/
theorem finalizeState_ok (pages : List Page) (st : ChunkState) :
    chunkStateOK pages st → chunkStateOK pages (finalizeState st) := by
  intro hok
  rcases st with ⟨chunks, curBlocks, t, l, nid⟩
  rcases hok with ⟨hchunks, hcur⟩
  cases t with
  | none =>
    cases l <;> cases curBlocks <;>
      exact ⟨fun c hc => hchunks c hc, fun b hb => by simp [finalizeState] at hb⟩
  | some tv =>
    cases l with
    | none =>
      cases curBlocks <;>
        exact ⟨fun c hc => hchunks c hc, fun b hb => by simp [finalizeState] at hb⟩
    | some lv =>
      cases curBlocks with
      | nil => exact ⟨fun c hc => hchunks c hc, fun b hb => by simp [finalizeState] at hb⟩
      | cons b0 bs =>
        refine ⟨?_, fun b hb => by simp [finalizeState] at hb⟩
        intro c hc pn hpn
        simp only [finalizeState, List.mem_append, List.mem_singleton] at hc
        rcases hc with hc | hc
        · exact hchunks c hc pn hpn
        · subst hc
          have := mem_collectPageNumbers pn (b0 :: bs) hpn
          obtain ⟨b, hb, hbpn⟩ := this
          exact hcur b hb pn hbpn

/-- One loop step preserves the traceability invariant for any block
whose own page number is traceable. -/
theorem chunkStep_ok (pages : List Page) (inc : Bool) (mhl : ℤ) (ap : Bool)
    (b : Block) (hb : ∀ pn : ℤ, b.pageNumber = some pn → pageNumberTraceable pages pn)
    (st : ChunkState) (hok : chunkStateOK pages st) :
    chunkStateOK pages (chunkStep inc mhl ap st b) := by
  unfold chunkStep
  split_ifs with h1 h2 h3 h4 h5
  · exact hok
  · have hfin := finalizeState_ok pages st hok
    refine ⟨hfin.1, ?_⟩
    intro x hx pn hpn
    simp only [List.mem_singleton] at hx
    subst hx
    exact hb pn hpn
  · refine ⟨hok.1, ?_⟩
    intro x hx pn hpn
    simp only [List.mem_singleton] at hx
    subst hx
    exact hb pn hpn
  · exact hok
  · refine ⟨hok.1, ?_⟩
    intro x hx pn hpn
    rcases List.mem_append.mp hx with hx | hx
    · exact hok.2 x hx pn hpn
    · simp only [List.mem_singleton] at hx
      subst hx
      exact hb pn hpn
  · refine ⟨hok.1, ?_⟩
    intro x hx pn hpn
    rcases List.mem_append.mp hx with hx | hx
    · exact hok.2 x hx pn hpn
    · simp only [List.mem_singleton] at hx
      subst hx
      exact hb pn hpn

/-- Claim C4 as amended: every page number of every produced Chunk either
already appeared as a page_number value on some input block, or is one of
the 1-based positions 1..len(pages) of the input sequence — not
necessarily one of the pages' own page_number fields. -/
theorem buildChunks_pageNumbers_traceable :
    ∀ (inc : Bool) (mhl : ℤ) (ap : Bool) (pages : List Page),
      ∀ c ∈ (buildChunks inc mhl ap pages).1, ∀ pn ∈ c.pageNumbers,
        (∃ p ∈ pages, ∃ b ∈ p.blocks, b.pageNumber = some pn) ∨
          (1 ≤ pn ∧ pn ≤ (pages.length : ℤ)) := by
  intro inc mhl ap pages c hc pn hpn
  have hmem : ∀ b ∈ ((mutatePagesGo 1 pages).map (·.blocks)).flatten,
      ∀ pn : ℤ, b.pageNumber = some pn → pageNumberTraceable pages pn := by
    intro b hb pn2 hpn2
    rcases mutatePagesGo_blocks_pageNumber pages 1 b hb pn2 hpn2 with h | h
    · exact Or.inl h
    · exact Or.inr ⟨h.1, by omega⟩
  have hfold : chunkStateOK pages
      ((((mutatePagesGo 1 pages).map (·.blocks)).flatten).foldl
        (chunkStep inc mhl ap) chunkStateNil) := by
    apply foldl_preserve (chunkStateOK pages) (chunkStep inc mhl ap)
    · exact ⟨fun c hc => by simp [chunkStateNil] at hc,
        fun b hb => by simp [chunkStateNil] at hb⟩
    · intro x hx s hs
      exact chunkStep_ok pages inc mhl ap x (hmem x hx) s hs
  have hfin := finalizeState_ok pages _ hfold
  have hc2 : c ∈ (finalizeState
      ((((mutatePagesGo 1 pages).map (·.blocks)).flatten).foldl
        (chunkStep inc mhl ap) chunkStateNil)).chunks := hc
  exact hfin.1 c hc2 pn hpn

/-- Counterexample for C4: a single input page whose page_number field is
5 produces a chunk with page_numbers [1] — the 1-based position, not the
page's number — so the union of chunk page numbers is not a subset of the
input page numbers. -/
theorem buildChunks_pageNumbers_not_subset_cex :
    ((buildChunks true 6 false [h1Page]).1).map (·.pageNumbers) = [[1]] ∧
    [h1Page].map (·.pageNumber) = [some 5] ∧
    ¬((1 : ℤ) ∈ [(5 : ℤ)]) := by
  refine ⟨by decide, by decide, by decide⟩

/-- Witness for C4: the amended statement instantiated on the chunk the
single h1Page produces and its page number 1. -/
theorem buildChunks_pageNumbers_traceable_witness :
    (∃ p ∈ [h1Page], ∃ b ∈ p.blocks, b.pageNumber = some 1) ∨
      (1 ≤ (1 : ℤ) ∧ (1 : ℤ) ≤ (([h1Page] : List Page).length : ℤ)) :=
  buildChunks_pageNumbers_traceable true 6 false [h1Page]
    ((buildChunks true 6 false [h1Page]).1.getD 0 (mkChunk 0 "" 0 []))
    (by decide) 1 (by decide)

end TenderRag
